import Mathlib

/-!
Verification of the hyperspectral cube accessor of this repository
(`src/core/data_handler.py`, `src/core/utils.py`).

The Python code is shallowly embedded: strings are `List Char`, NumPy float
arrays become lists of a value type `Val` (NaN / infinities / rationals),
in-place object state becomes explicit records, and fallible operations
return `Option`.  Every definition mirrors the Python source line by line;
the few places where external library behaviour (the `spectral` header
parser) has to be modelled from the specification are marked as such.
-/

namespace DataHandler

/-! ## Basic character and list utilities (models of Python str methods) -/

/-- Boolean test that `pat` occurs at the start of `l`
(models Python `str.startswith`). -/
def hasLead : List Char → List Char → Bool
  | [], _ => true
  | _ :: _, [] => false
  | a :: as, b :: bs => a == b && hasLead as bs

/-- Boolean test that `pat` occurs contiguously somewhere inside `l`
(models Python `sub in s`). -/
def containsSeq (pat : List Char) : List Char → Bool
  | [] => hasLead pat []
  | c :: cs => hasLead pat (c :: cs) || containsSeq pat cs

/-- Lower-casing of a character list (models Python `str.lower`). -/
def toLowerL (l : List Char) : List Char := l.map Char.toLower

/-- Whitespace characters stripped by Python `str.strip()`. -/
def isWS (c : Char) : Bool :=
  c == ' ' || c == '\t' || c == '\n' || c == '\r' || c == '\x0b' || c == '\x0c'

/-- Left strip of whitespace (models Python `str.lstrip`). -/
def lstrip (l : List Char) : List Char := l.dropWhile isWS

/-- Right strip of whitespace (models Python `str.rstrip`). -/
def rstrip (l : List Char) : List Char := (l.reverse.dropWhile isWS).reverse

/-- Whitespace strip from both ends (models Python `str.strip()`). -/
def stripWS (l : List Char) : List Char := rstrip (lstrip l)

/-- Strip of the characters of `bad` from both ends
(models Python `str.strip(bad)`). -/
def stripSet (bad : List Char) (l : List Char) : List Char :=
  ((l.dropWhile (bad.contains ·)).reverse.dropWhile (bad.contains ·)).reverse

/-- Split of a character list at commas (models Python `str.split(',')`). -/
def splitC : List Char → List (List Char)
  | [] => [[]]
  | c :: cs =>
    if c = ',' then [] :: splitC cs
    else
      match splitC cs with
      | [] => [[c]]
      | h :: t => (c :: h) :: t

/-- Insertion at a position, clamping to the end for large indices
(models Python `list.insert`). -/
def pyInsert (idx : Nat) (x : α) (l : List α) : List α :=
  l.take idx ++ [x] ++ l.drop idx

/-- Decimal rendering of a natural number (models Python `str(n)` for the
non-negative integers that occur in a bad-band list). -/
def natStr (n : Nat) : List Char := Nat.toDigits 10 n

/-- Parse of a decimal digit. -/
def digitVal? (c : Char) : Option Nat :=
  if '0' ≤ c ∧ c ≤ '9' then some (c.toNat - '0'.toNat) else none

/-- Parse of a non-negative decimal integer; `none` models Python `int(s)`
raising `ValueError` (the bad-band values written by this program are the
non-negative literals `0` and `1`). -/
def parseIntL (l : List Char) : Option Nat :=
  match l with
  | [] => none
  | _ =>
    l.foldl (fun acc c =>
      match acc, digitVal? c with
      | some n, some d => some (n * 10 + d)
      | _, _ => none) (some 0)

/-! ## NetCDF axis classification (`DataHandler._determine_emit_transpose`,
`src/core/data_handler.py:518-571`) -/

/-- Classification of one NetCDF dimension: spectral, spatial or unknown. -/
inductive DimType where
  | spectral : DimType
  | spatial : DimType
  | unknown : DimType
deriving DecidableEq, Repr

/-- Spectral vocabulary of `_determine_emit_transpose`. -/
def spectralNames : List (List Char) :=
  ["bands".toList, "wavelength".toList, "spectral".toList]

/-- Spatial vocabulary of `_determine_emit_transpose`. -/
def spatialNames : List (List Char) :=
  ["downtrack".toList, "crosstrack".toList, "x".toList, "y".toList,
   "lat".toList, "lon".toList]

/-- Classification of one axis by name substring and cardinality, mirroring
the branch at `data_handler.py:538-543`: a spectral name substring or a
length in `[200, 400]` makes the axis spectral; otherwise a spatial name
substring or a length `≥ 50` makes it spatial; otherwise it is unknown. -/
def dimType (name : List Char) (size : Nat) : DimType :=
  let lowered := toLowerL name
  if spectralNames.any (fun s => containsSeq s lowered) ∨ (200 ≤ size ∧ size ≤ 400) then
    DimType.spectral
  else if spatialNames.any (fun s => containsSeq s lowered) ∨ 50 ≤ size then
    DimType.spatial
  else
    DimType.unknown

/-- Indices of the spectral axes in classification order
(`spectral_dims` at `data_handler.py:548`). -/
def spectralDims (kinds : List DimType) : List Nat :=
  (kinds.enum.filter (fun p => p.2 == DimType.spectral)).map (fun p => p.1)

/-- Chosen spectral axis: the first spectral candidate, or axis 0 when
there is none (`data_handler.py:549-553`). -/
def spectralIndex (kinds : List DimType) : Nat :=
  match spectralDims kinds with
  | [] => 0
  | i :: _ => i

/-- True exactly when the low-confidence warning
"No spectral dimension identified, assuming first dimension is spectral"
is printed (`data_handler.py:550`). -/
def noSpectralWarning (kinds : List DimType) : Bool :=
  (spectralDims kinds).isEmpty

/-- Classification of every `(name, size)` axis of a variable. -/
def kindsOf (dims : List (List Char × Nat)) : List DimType :=
  dims.map (fun p => dimType p.1 p.2)

/-- Derived transpose of `_determine_emit_transpose`
(`data_handler.py:555-571`): spectral axis first yields `(1,2,0)`, last
yields no transpose, otherwise the remaining axes keep their relative order
and the spectral axis moves to the end. -/
def determineEmitTranspose (dims : List (List Char × Nat)) : Option (Nat × Nat × Nat) :=
  let si := spectralIndex (kindsOf dims)
  if si = 0 then some (1, 2, 0)
  else if si = 2 then none
  else if dims.length = 3 then
    match ((List.range 3).filter (fun i => i ≠ si)) ++ [si] with
    | [a, b, c] => some (a, b, c)
    | _ => none
  else none

/-- Permutation actually applied to the data (`np.transpose` with the
derived order, identity when no transpose is returned). -/
def effectivePerm (t : Option (Nat × Nat × Nat)) : Nat × Nat × Nat :=
  match t with
  | none => (0, 1, 2)
  | some p => p

/-- Result shape of `np.transpose(data, p)` for a 3-dimensional array:
axis `i` of the result is axis `p i` of the input. -/
def applyPerm (p : Nat × Nat × Nat) (shape : Nat × Nat × Nat) : Nat × Nat × Nat :=
  let get : Nat → Nat := fun i =>
    match i with
    | 0 => shape.1
    | 1 => shape.2.1
    | _ => shape.2.2
  (get p.1, get p.2.1, get p.2.2)

/-! ## Floating-point values as used by the masking and compositing code -/

/-- Model of an IEEE-754 double as the masking and compositing code uses
it: NaN, the two infinities, or a finite rational. -/
inductive Val where
  | nan : Val
  | inf : Val
  | ninf : Val
  | num : ℚ → Val
deriving DecidableEq, Repr

/-- True on NaN (models `np.isnan`). -/
def vIsNan : Val → Bool
  | Val.nan => true
  | _ => false

/-- True on finite values (models `np.isfinite`). -/
def vFinite : Val → Bool
  | Val.num _ => true
  | _ => false

/-- IEEE strict less-than: false whenever either side is NaN. -/
def vLt : Val → Val → Bool
  | Val.nan, _ => false
  | _, Val.nan => false
  | Val.inf, _ => false
  | Val.ninf, Val.ninf => false
  | Val.ninf, _ => true
  | Val.num _, Val.inf => true
  | Val.num _, Val.ninf => false
  | Val.num a, Val.num b => decide (a < b)

/-- IEEE strict greater-than. -/
def vGt (a b : Val) : Bool := vLt b a

/-- IEEE equality: false whenever either side is NaN. -/
def vEq : Val → Val → Bool
  | Val.num a, Val.num b => a == b
  | Val.inf, Val.inf => true
  | Val.ninf, Val.ninf => true
  | _, _ => false

/-! ## NetCDF fill-value masking
(`DataHandler._handle_emit_fill_values`, `data_handler.py:597-609`, and
`DataHandler._handle_aviris3_fill_values`, `data_handler.py:611-634`) -/

/-- EMIT fill sentinel `self.fill_value = -9999.0` set in `__init__`. -/
def emitFillValue : Val := Val.num (-9999)

/-- Element-wise mask of `_handle_emit_fill_values`: the fill sentinel is
always masked, and the `[0,1]` range mask is added only when
`self.file_type == 'emit'` held at call time.  The loader calls this at
`data_handler.py:299` before assigning `self.file_type = 'emit'` at line
305, so `prevFileType` is the handler's file type from before the load
(`none` on a fresh handler). -/
def emitMaskedElem (prevFileType : Option (List Char)) (x : Val) : Bool :=
  let fillMask := vEq x emitFillValue
  if prevFileType = some "emit".toList then
    fillMask || (vLt x (Val.num 0) || vGt x (Val.num 1))
  else
    fillMask

/-- Element-wise mask of `_handle_aviris3_fill_values`: NaN and the
`-9999.0` fill value are always masked; reflectance additionally masks
values outside `[0,1]`, radiance masks only negative values. -/
def aviris3MaskedElem (dataType : List Char) (x : Val) : Bool :=
  let nanMask := vIsNan x
  let fillValueMask := vEq x (Val.num (-9999))
  let validRangeMask :=
    if dataType = "reflectance".toList then
      vLt x (Val.num 0) || vGt x (Val.num 1)
    else
      vLt x (Val.num 0)
  nanMask || fillValueMask || validRangeMask

/-! ## Setter state machine (`DataHandler.set_bad_band_list`,
`data_handler.py:834-866`, and `DataHandler.set_data_ignore_value`,
`data_handler.py:868-885`) -/

/-- In-memory handler state relevant to the two metadata setters, plus
the environment facts that decide whether the header rewrite succeeds. -/
structure HandlerState where
  isLoaded : Bool
  fileType : Option (List Char)
  bands : Nat
  badBandList : Option (List Nat)
  dataIgnoreValue : Option ℚ
  headerFilenameSet : Bool
  headerExists : Bool
  headerWritable : Bool
  headerIOOk : Bool
deriving DecidableEq, Repr

/-- Success of `_save_bad_band_list_to_header`
(`data_handler.py:887-944`): the header filename must be set, the file
must exist and be writable, and the read-modify-write must not raise. -/
def saveBadBandListOk (s : HandlerState) : Bool :=
  s.headerFilenameSet && s.headerExists && s.headerWritable && s.headerIOOk

/-- Success of `_save_data_ignore_value_to_header`
(`data_handler.py:946-997`): the filename and existence checks are
explicit; writability is enforced by the `open(..., 'w')` call inside the
try block raising on a read-only file. -/
def saveDataIgnoreValueOk (s : HandlerState) : Bool :=
  s.headerFilenameSet && s.headerExists && s.headerWritable && s.headerIOOk

/-- Validation of `set_bad_band_list` that every entry is 0 or 1. -/
def all01 (m : List Nat) : Bool := m.all (fun x => x == 0 || x == 1)

/-- Model of `set_bad_band_list` (`data_handler.py:834-866`): validation
failures return `False` without mutating; otherwise `self.bad_band_list`
is assigned first and the header rewrite is attempted afterwards, its
result returned unchanged — with no rollback of the assignment. -/
def setBadBandList (s : HandlerState) (arg : Option (List Nat)) :
    Bool × HandlerState :=
  if s.isLoaded = true ∧ s.fileType = some "envi".toList then
    match arg with
    | none =>
      let s1 := { s with badBandList := none }
      (saveBadBandListOk s1, s1)
    | some m =>
      if m.length ≠ s.bands then (false, s)
      else if all01 m = false then (false, s)
      else
        let s1 := { s with badBandList := some m }
        (saveBadBandListOk s1, s1)
  else
    (false, s)

/-- Model of `set_data_ignore_value` (`data_handler.py:868-885`):
`self.data_ignore_value` is assigned first, then the header rewrite is
attempted and its result returned — with no rollback of the assignment. -/
def setDataIgnoreValue (s : HandlerState) (v : Option ℚ) :
    Bool × HandlerState :=
  if s.isLoaded = true ∧ s.fileType = some "envi".toList then
    let s1 := { s with dataIgnoreValue := v }
    (saveDataIgnoreValueOk s1, s1)
  else
    (false, s)

/-- Concrete loaded ENVI handler whose header file exists but is not
writable, so every header rewrite fails. -/
def readOnlyHeaderState : HandlerState :=
  { isLoaded := true
    fileType := some "envi".toList
    bands := 1
    badBandList := some [1]
    dataIgnoreValue := none
    headerFilenameSet := true
    headerExists := true
    headerWritable := false
    headerIOOk := true }

/-! ## Resident-mode line extraction (`DataHandler.extract_line_spectra`,
ENVI non-memmap branch, `data_handler.py:1229-1246`) -/

/-- Model of the resident-mode pixel-by-pixel line read: `readPixel col`
stands for `self.spy_file.read_pixel(line_index, col)` (external
`spectral` library call), returning the pixel spectrum or `none` when the
call raises; a failed pixel contributes a row of NaN and the loop
continues with the remaining pixels. -/
def extractLineResidentEnvi (cols bands : Nat)
    (readPixel : Nat → Option (List Val)) : List (List Val) :=
  (List.range cols).map (fun col =>
    match readPixel col with
    | some spectrum => spectrum
    | none => List.replicate bands Val.nan)

/-! ## Band-index validation (`DataHandler.get_rgb_composite`,
`data_handler.py:1285-1289`, vs `DataHandler.get_band_data`,
`data_handler.py:1127-1131`) -/

/-- Clamp of one band index in `get_rgb_composite`:
`min(max(band, 0), max_bands - 1)`. -/
def clampBandIndex (band : Int) (maxBands : Int) : Int :=
  min (max band 0) (maxBands - 1)

/-- The three clamped channel indices of `get_rgb_composite`. -/
def rgbClampedIndices (r g b : Int) (maxBands : Int) : Int × Int × Int :=
  (clampBandIndex r maxBands, clampBandIndex g maxBands, clampBandIndex b maxBands)

/-- Index validation of `get_band_data`: `None` for an out-of-range band
index, otherwise the band is read as requested. -/
def getBandDataIndex (bandIndex : Int) (nBands : Int) : Option Int :=
  if bandIndex < 0 ∨ bandIndex ≥ nBands then none else some bandIndex

/-! ## RGB band auto-selection (`DataHandler._estimate_rgb_bands`,
`data_handler.py:1349-1366`, and `get_true_color_rgb_bands`,
`src/core/utils.py:296-375`) -/

/-- Absolute value written with an executable conditional so that the
kernel can evaluate it (models `np.abs`). -/
def qabs (x : ℚ) : ℚ := if x < 0 then -x else x

/-- First index of the minimum of `|w - t|` over the list, together with
that minimum (models `np.argmin(np.abs(wavelengths - target))`). -/
def argminAbsAux (t : ℚ) : List ℚ → Option (Nat × ℚ)
  | [] => none
  | w :: ws =>
    match argminAbsAux t ws with
    | none => some (0, qabs (w - t))
    | some (j, m) =>
      if qabs (w - t) ≤ m then some (0, qabs (w - t)) else some (j + 1, m)

/-- Index of the wavelength nearest to target `t`
(`np.argmin(np.abs(self.wavelengths - target))`, first index on ties). -/
def argminAbs (ws : List ℚ) (t : ℚ) : Nat :=
  match argminAbsAux t ws with
  | none => 0
  | some (j, _) => j

/-- Band auto-selection of `_estimate_rgb_bands`
(`data_handler.py:1349-1366`): without wavelength information a fixed
`(29, 19, 9)` guess clamped to the band count; otherwise the bands whose
wavelengths are nearest to 650/550/450 nm, with no further fallback. -/
def estimateRgbBands (wavelengths : Option (List ℚ)) (nBands : Int) :
    Int × Int × Int :=
  match wavelengths with
  | none => (min 29 (nBands - 1), min 19 (nBands - 1), min 9 (nBands - 1))
  | some ws =>
    if ws.length = 0 then
      (min 29 (nBands - 1), min 19 (nBands - 1), min 9 (nBands - 1))
    else
      ((argminAbs ws 650 : Int), (argminAbs ws 550 : Int), (argminAbs ws 450 : Int))

/-- Minimum of a list of rationals (models `np.min`; the callers guard
against the empty list, whose default here is irrelevant). -/
def listMinQ (l : List ℚ) : ℚ :=
  match l with
  | [] => 0
  | x :: xs => xs.foldl min x

/-- Maximum of a list of rationals (models `np.max`). -/
def listMaxQ (l : List ℚ) : ℚ :=
  match l with
  | [] => 0
  | x :: xs => xs.foldl max x

/-- Model of `get_true_color_rgb_bands` (`utils.py:296-375`): true-colour
band selection with a documented even-spread fallback when the
wavelengths give no usable visible coverage.  Python computes
`int(n_bands * 0.8)` with binary floats; it is modelled as the rational
floor `8 * n / 10`, which agrees at every band count exercised here. -/
def getTrueColorRgbBands (wavelengths : Option (List ℚ)) : Nat × Nat × Nat :=
  match wavelengths with
  | none => (29, 19, 9)
  | some ws =>
    if ws.length = 0 then (0, 0, 0)
    else
      let minWl := listMinQ ws
      let maxWl := listMaxQ ws
      let hasBlue := minWl ≤ 480
      let hasGreen := minWl ≤ 580 ∧ 520 ≤ maxWl
      let hasRed := 620 ≤ maxWl
      if hasBlue ∧ hasGreen ∧ hasRed then
        (argminAbs ws 650, argminAbs ws 550, argminAbs ws 450)
      else
        let n := ws.length
        if n < 3 then (0, 0, 0)
        else
          let redIdx := min (n - 1) (8 * n / 10)
          let greenIdx0 := min (n - 1) (5 * n / 10)
          let blueIdx0 := min (n - 1) (2 * n / 10)
          let greenIdx :=
            if redIdx = greenIdx0 then
              if 0 < redIdx then redIdx - 1 else min (n - 1) (redIdx + 1)
            else greenIdx0
          let blueIdx1 :=
            if blueIdx0 = greenIdx then
              if 1 < blueIdx0 then greenIdx - 2 else min (n - 1) (greenIdx + 2)
            else blueIdx0
          let blueIdx :=
            if blueIdx1 = redIdx then
              if 2 < blueIdx1 then redIdx - 3 else min (n - 1) (redIdx + 3)
            else blueIdx1
          (redIdx, greenIdx, blueIdx)

/-! ## Display normalization (`DataHandler._normalize_for_display`,
`data_handler.py:1368-1438`) -/

/-- Insertion into an ascending list, for sorting. -/
def insertSorted (x : ℚ) : List ℚ → List ℚ
  | [] => [x]
  | y :: ys => if x ≤ y then x :: y :: ys else y :: insertSorted x ys

/-- Ascending sort (models the sort inside `np.percentile`). -/
def sortQ (l : List ℚ) : List ℚ := l.foldr insertSorted []

/-- Linear-interpolation percentile over a nonempty list (models
`np.percentile(valid_data, q)` with the default linear method: virtual
position `q/100 * (n-1)`, interpolating between the neighbouring sorted
elements). -/
def percentileQ (data : List ℚ) (q : ℚ) : ℚ :=
  let sorted := sortQ data
  let n := sorted.length
  let pos := q * ((n : ℚ) - 1) / 100
  let lo := (⌊pos⌋).toNat
  let hi := (⌈pos⌉).toNat
  let frac := pos - (⌊pos⌋ : ℚ)
  sorted.getD lo 0 + frac * (sorted.getD hi 0 - sorted.getD lo 0)

/-- Tolerance of the no-data comparison (`data_handler.py:1395`):
`max(abs(v) * 1e-6, 1e-6) if v != 0 else 1e-6`. -/
def noDataTolerance (d : ℚ) : ℚ :=
  if d ≠ 0 then max (qabs d * (1 / 1000000)) (1 / 1000000) else 1 / 1000000

/-- Model of `np.isclose(x, d, atol=noDataTolerance d, rtol=1e-6)` against
a finite no-data value: `|x - d| <= atol + rtol * |d|`, false when `x` is
NaN or infinite. -/
def vIsClose (x : Val) (d : ℚ) : Bool :=
  match x with
  | Val.num q => decide (qabs (q - d) ≤ noDataTolerance d + (1 / 1000000) * qabs d)
  | _ => false

/-- Model of `np.isclose(x, nd)` for an arbitrary no-data value: for an
infinite `nd`, NumPy reduces the test to equality with that infinity. -/
def vIsCloseV (x : Val) (nd : Val) : Bool :=
  match nd with
  | Val.nan => false
  | Val.inf => x == Val.inf
  | Val.ninf => x == Val.ninf
  | Val.num d => vIsClose x d

/-- Valid-pixel test of `_normalize_for_display`
(`data_handler.py:1385-1397`): finite, and — unless the no-data value is
absent or NaN — not close to the no-data value. -/
def validPixel (noData : Option Val) (x : Val) : Bool :=
  vFinite x &&
    (match noData with
     | none => true
     | some nd => if vIsNan nd then true else !(vIsCloseV x nd))

/-- The finite pixel values that survive the no-data filter
(`valid_data` at `data_handler.py:1399`). -/
def validData (band : List Val) (noData : Option Val) : List ℚ :=
  band.filterMap (fun x =>
    match x with
    | Val.num q => if validPixel noData (Val.num q) then some q else none
    | _ => none)

/-- Stretch bounds of `_normalize_for_display`
(`data_handler.py:1407-1415`): the `[stretch, 100 - stretch]`
percentiles; the min/max fallback triggers only when `np.percentile`
raises, which for a nonempty input happens exactly when a requested
percentile lies outside `[0, 100]`. -/
def stretchBounds (valid : List ℚ) (stretch : ℚ) : ℚ × ℚ :=
  if 0 ≤ stretch ∧ stretch ≤ 100 ∧ 0 ≤ 100 - stretch ∧ 100 - stretch ≤ 100 then
    (percentileQ valid stretch, percentileQ valid (100 - stretch))
  else
    (listMinQ valid, listMaxQ valid)

/-- Clip into `[0, 1]` (models `np.clip(x, 0, 1)`). -/
def clip01 (x : ℚ) : ℚ := max 0 (min 1 x)

/-- One pixel of the linear stretch
(`data_handler.py:1418-1422`): `(x - p2) / (p98 - p2)` clipped to `[0,1]`
and cast to `uint8` after scaling by 255 (truncation).  The clip maps
`+inf` to 1 and `-inf` to 0; the float-to-uint8 cast of NaN yields 0 on
this platform. -/
def stretchPixel (p2 p98 : ℚ) (x : Val) : Nat :=
  match x with
  | Val.nan => 0
  | Val.inf => 255
  | Val.ninf => 0
  | Val.num q => (⌊clip01 ((q - p2) / (p98 - p2)) * 255⌋).toNat

/-- Pre-no-data-pass output of one channel of `_normalize_for_display`
(`data_handler.py:1381-1428`): zeros when no pixel is valid, the linear
stretch when the bounds are non-degenerate, otherwise a constant 128
(bound non-zero) or 0 (bound zero) plane. -/
def normalizeCore (band : List Val) (stretch : ℚ) (noData : Option Val) :
    List Nat :=
  let valid := validData band noData
  if valid.length = 0 then band.map (fun _ => 0)
  else
    let pr := stretchBounds valid stretch
    if pr.1 < pr.2 then band.map (stretchPixel pr.1 pr.2)
    else if pr.1 ≠ 0 then band.map (fun _ => 128)
    else band.map (fun _ => 0)

/-- One channel of `_normalize_for_display` including the final no-data
pass (`data_handler.py:1430-1435`): pixels close to a finite no-data
value are set to 0 after the stretch.  The all-invalid branch of the
Python loop `continue`s past this pass; the outputs agree because that
branch is all zeros already. -/
def normalizeBand (band : List Val) (stretch : ℚ) (noData : Option Val) :
    List Nat :=
  let core := normalizeCore band stretch noData
  match noData with
  | none => core
  | some nd =>
    if vIsNan nd then core
    else List.zipWith (fun x v => if vIsCloseV x nd then 0 else v) band core

/-- Modelled from the spec: the Compositor channel behaviour of spec
section 4.6, which on `p_high == p_low` falls back to the `[min, max]` of
the valid data and only if that is still degenerate uses 128 (non-zero
constant) or 0 (all-zero).  Declared solely for comparison against the
source-derived `normalizeBand`. -/
def specNormalizeBand (band : List Val) (stretch : ℚ) (noData : Option Val) :
    List Nat :=
  let valid := validData band noData
  let core :=
    if valid.length = 0 then band.map (fun _ => 0)
    else
      let pr0 := stretchBounds valid stretch
      let pr := if pr0.1 = pr0.2 then (listMinQ valid, listMaxQ valid) else pr0
      if pr.1 < pr.2 then band.map (stretchPixel pr.1 pr.2)
      else if pr.1 ≠ 0 then band.map (fun _ => 128)
      else band.map (fun _ => 0)
  match noData with
  | none => core
  | some nd =>
    if vIsNan nd then core
    else List.zipWith (fun x v => if vIsCloseV x nd then 0 else v) band core

/-! ## Bad-band-list header round trip
(`DataHandler._save_bad_band_list_to_header`, `data_handler.py:887-944`,
`DataHandler._load_bad_band_list_from_header`, `data_handler.py:759-798`,
`DataHandler.reload_from_header`, `data_handler.py:999-1027`).
Header lines are represented without their newline terminators. -/

/-- Characters stripped from the bad-band value by
`bbl_data.strip('{}[] ')` (`data_handler.py:778`). -/
def bblStripChars : List Char := "{}[] ".toList

/-- Removal of every line whose stripped lower-case text starts with
`bbl` (`data_handler.py:908-911`). -/
def filterBBLLines (lines : List (List Char)) : List (List Char) :=
  lines.filter (fun l => !(hasLead "bbl".toList (toLowerL (stripWS l))))

/-- Serialized entries `', '.join(map(str, bbl))` (`data_handler.py:915`). -/
def serElems : List Nat → List Char
  | [] => []
  | [n] => natStr n
  | n :: rest => natStr n ++ ',' :: ' ' :: serElems rest

/-- Serialized value `'{' + ', '.join(map(str, bbl)) + '}'`. -/
def serBBLValue (mask : List Nat) : List Char :=
  '{' :: (serElems mask ++ ['}'])

/-- The header line `bbl = {…}` written by the save
(`data_handler.py:916`). -/
def bblHeaderLine (mask : List Nat) : List Char :=
  "bbl = ".toList ++ serBBLValue mask

/-- Insertion-index scan of `_save_bad_band_list_to_header`
(`data_handler.py:918-923`): starting from the line count, take the
maximum with `i + 1` for every line starting with
wavelength/fwhm/bands — which can never exceed the starting value, so
the new line is appended at the end. -/
def bblInsertIdx (filtered : List (List Char)) : Nat :=
  filtered.enum.foldl (fun acc p =>
    if hasLead "wavelength".toList (toLowerL (stripWS p.2)) ||
       hasLead "fwhm".toList (toLowerL (stripWS p.2)) ||
       hasLead "bands".toList (toLowerL (stripWS p.2)) then
      max acc (p.1 + 1)
    else acc) filtered.length

/-- Header rewrite of `_save_bad_band_list_to_header`
(`data_handler.py:902-932`): drop every `bbl` line, then (for a present
list) insert the new `bbl = {…}` line at the computed index. -/
def saveBBLLines (lines : List (List Char)) (bbl : Option (List Nat)) :
    List (List Char) :=
  let filtered := filterBBLLines lines
  match bbl with
  | some mask => pyInsert (bblInsertIdx filtered) (bblHeaderLine mask) filtered
  | none => filtered

/-- Key of a `key = value` header line: the text before the first `=`,
whitespace-stripped. -/
def keyOf (l : List Char) : List Char :=
  stripWS (l.takeWhile (fun c => !(c == '=')))

/-- Value of a `key = value` header line: the text after the first `=`,
whitespace-stripped. -/
def valOf (l : List Char) : List Char :=
  stripWS (l.drop ((l.takeWhile (fun c => !(c == '='))).length + 1))

/-- Modelled from the spec: the ENVI header parse performed by the
external `spectral` library on reload (`HeaderCodec.parse` of spec
section 4.1 — `key = value` lines, "tolerant of case-insensitive
keys"); the lookup returns the raw value text of the first line whose
key matches case-insensitively. -/
def headerLookup (lines : List (List Char)) (key : List Char) :
    Option (List Char) :=
  (lines.find? (fun l => l.contains '=' && (toLowerL (keyOf l) == key))).map valOf

/-- All-or-nothing integer parse of the comma pieces; `none` models
`int()` raising inside the list comprehension. -/
def optMapIntL : List (List Char) → Option (List Nat)
  | [] => some []
  | x :: xs =>
    match parseIntL x, optMapIntL xs with
    | some n, some l => some (n :: l)
    | _, _ => none

/-- String parse of a brace list already stripped of `{}[] `
(`[int(x.strip()) for x in bbl_str.split(',') if x.strip()]`,
`data_handler.py:780`). -/
def parseBBLPieces (s : List Char) : Option (List Nat) :=
  optMapIntL (((splitC s).map stripWS).filter (fun x => x ≠ []))

/-- Model of `_load_bad_band_list_from_header` (`data_handler.py:759-798`)
reading the parsed `bbl` value as text: an absent key or a falsy value
leaves the in-memory list (`prior`, surviving the reload) untouched; a
parse failure or a length mismatch against the band count resets it to
`none`; an empty brace list keeps the prior value but then trips the
success log over it, so it survives only when it is a present list of
the right length. -/
def loadBBLValue (v : List Char) (bands : Nat) (prior : Option (List Nat)) :
    Option (List Nat) :=
  if v = [] then prior
  else
    match (if stripSet bblStripChars v = [] then some prior
           else
             match parseBBLPieces (stripSet bblStripChars v) with
             | some l => some (some l)
             | none => none : Option (Option (List Nat))) with
    | none => none
    | some (some l) => if l.length ≠ bands then none else some l
    | some none => none

def loadBBL (lines : List (List Char)) (bands : Nat)
    (prior : Option (List Nat)) : Option (List Nat) :=
  match headerLookup lines "bbl".toList with
  | none => prior
  | some v => loadBBLValue v bands prior

/-! ## Theorems -/

/-- Helper: a kind list without a spectral entry has no spectral candidates. -/
theorem spectralDims_eq_nil_of_not_mem {kinds : List DimType}
    (h : DimType.spectral ∉ kinds) : spectralDims kinds = [] := by
  unfold spectralDims
  rw [List.filter_eq_nil_iff.mpr, List.map_nil]
  intro p hp
  simp only [beq_iff_eq]
  intro hc
  exact h (hc ▸ List.snd_mem_of_mem_enum hp)

/-- C1: for a 3-dimensional NetCDF variable with exactly one spectral axis
and two spatial axes, the derived transpose places the spectral axis last
and keeps the relative order of the two spatial axes: spectral first gives
permutation `(1,2,0)`, spectral in the middle gives `(0,2,1)`, spectral
last gives no transpose; in each case the resulting shape is
`(rows, cols, bands)` with the spectral size last. -/
theorem emit_transpose_places_spectral_axis_last
    (n0 n1 n2 : List Char) (s0 s1 s2 : Nat) :
    (dimType n0 s0 = DimType.spectral → dimType n1 s1 = DimType.spatial →
      dimType n2 s2 = DimType.spatial →
      determineEmitTranspose [(n0, s0), (n1, s1), (n2, s2)] = some (1, 2, 0) ∧
      applyPerm (effectivePerm (determineEmitTranspose [(n0, s0), (n1, s1), (n2, s2)]))
        (s0, s1, s2) = (s1, s2, s0)) ∧
    (dimType n0 s0 = DimType.spatial → dimType n1 s1 = DimType.spectral →
      dimType n2 s2 = DimType.spatial →
      determineEmitTranspose [(n0, s0), (n1, s1), (n2, s2)] = some (0, 2, 1) ∧
      applyPerm (effectivePerm (determineEmitTranspose [(n0, s0), (n1, s1), (n2, s2)]))
        (s0, s1, s2) = (s0, s2, s1)) ∧
    (dimType n0 s0 = DimType.spatial → dimType n1 s1 = DimType.spatial →
      dimType n2 s2 = DimType.spectral →
      determineEmitTranspose [(n0, s0), (n1, s1), (n2, s2)] = none ∧
      applyPerm (effectivePerm (determineEmitTranspose [(n0, s0), (n1, s1), (n2, s2)]))
        (s0, s1, s2) = (s0, s1, s2)) := by
  refine ⟨fun h0 h1 h2 => ?_, fun h0 h1 h2 => ?_, fun h0 h1 h2 => ?_⟩
  · have hk : kindsOf [(n0, s0), (n1, s1), (n2, s2)] =
        [DimType.spectral, DimType.spatial, DimType.spatial] := by
      simp [kindsOf, h0, h1, h2]
    have ht : determineEmitTranspose [(n0, s0), (n1, s1), (n2, s2)] = some (1, 2, 0) := by
      unfold determineEmitTranspose
      rw [hk]
      rfl
    exact ⟨ht, by rw [ht]; rfl⟩
  · have hk : kindsOf [(n0, s0), (n1, s1), (n2, s2)] =
        [DimType.spatial, DimType.spectral, DimType.spatial] := by
      simp [kindsOf, h0, h1, h2]
    have ht : determineEmitTranspose [(n0, s0), (n1, s1), (n2, s2)] = some (0, 2, 1) := by
      unfold determineEmitTranspose
      rw [hk]
      rfl
    exact ⟨ht, by rw [ht]; rfl⟩
  · have hk : kindsOf [(n0, s0), (n1, s1), (n2, s2)] =
        [DimType.spatial, DimType.spatial, DimType.spectral] := by
      simp [kindsOf, h0, h1, h2]
    have ht : determineEmitTranspose [(n0, s0), (n1, s1), (n2, s2)] = none := by
      unfold determineEmitTranspose
      rw [hk]
      rfl
    exact ⟨ht, by rw [ht]; rfl⟩

/-- C1 witness: the synthetic EMIT-style variable
`(bands=224, downtrack=1242, crosstrack=1242)` is transposed by `(1,2,0)`
into the canonical `(rows, cols, bands)` shape. -/
theorem emit_transpose_places_spectral_axis_last_witness :
    determineEmitTranspose
      [("bands".toList, 224), ("downtrack".toList, 1242), ("crosstrack".toList, 1242)] =
        some (1, 2, 0) ∧
    applyPerm (effectivePerm (determineEmitTranspose
      [("bands".toList, 224), ("downtrack".toList, 1242), ("crosstrack".toList, 1242)]))
        (224, 1242, 1242) = (1242, 1242, 224) :=
  (emit_transpose_places_spectral_axis_last
    "bands".toList "downtrack".toList "crosstrack".toList 224 1242 1242).1
    (by decide) (by decide) (by decide)

/-- C8 counterexample: for the axes
`(x:10, bands:224, spectral_axis:300)` there are two spectral-axis
candidates, yet the spectral axis is resolved to axis 1 (the first
candidate) rather than defaulting to axis 0, and the low-confidence
warning is not emitted; the claim that multiple candidates default to
axis 0 with a warning is therefore false. -/
theorem multiple_spectral_candidates_not_defaulted :
    (spectralDims (kindsOf
      [("x".toList, 10), ("bands".toList, 224), ("spectral_axis".toList, 300)])).length = 2 ∧
    spectralIndex (kindsOf
      [("x".toList, 10), ("bands".toList, 224), ("spectral_axis".toList, 300)]) = 1 ∧
    noSpectralWarning (kindsOf
      [("x".toList, 10), ("bands".toList, 224), ("spectral_axis".toList, 300)]) = false ∧
    determineEmitTranspose
      [("x".toList, 10), ("bands".toList, 224), ("spectral_axis".toList, 300)] =
        some (0, 2, 1) := by
  decide

/-- C8 amended: with zero spectral-axis candidates the spectral axis
defaults to axis 0, the low-confidence warning is emitted and the
transpose treats axis 0 as spectral; with one or more candidates the
first candidate is chosen and no low-confidence warning is emitted. -/
theorem spectral_axis_default_and_first_candidate
    (dims : List (List Char × Nat)) :
    (DimType.spectral ∉ kindsOf dims →
      spectralIndex (kindsOf dims) = 0 ∧
      noSpectralWarning (kindsOf dims) = true ∧
      determineEmitTranspose dims = some (1, 2, 0)) ∧
    (∀ j js, spectralDims (kindsOf dims) = j :: js →
      spectralIndex (kindsOf dims) = j ∧
      noSpectralWarning (kindsOf dims) = false) := by
  constructor
  · intro h
    have hnil := spectralDims_eq_nil_of_not_mem h
    have hidx : spectralIndex (kindsOf dims) = 0 := by
      unfold spectralIndex
      rw [hnil]
    refine ⟨hidx, ?_, ?_⟩
    · unfold noSpectralWarning
      rw [hnil]
      rfl
    · unfold determineEmitTranspose
      rw [hidx]
      rfl
  · intro j js hj
    constructor
    · unfold spectralIndex
      rw [hj]
    · unfold noSpectralWarning
      rw [hj]
      rfl

/-- C8 witness: a variable with no spectral candidate
(`(rows:1242, cols:1242, z:40)`: no spectral name, no length in
`[200,400]`) defaults to axis 0 with the warning. -/
theorem spectral_axis_default_witness :
    spectralIndex (kindsOf
      [("rows".toList, 1242), ("cols".toList, 1242), ("z".toList, 40)]) = 0 ∧
    noSpectralWarning (kindsOf
      [("rows".toList, 1242), ("cols".toList, 1242), ("z".toList, 40)]) = true ∧
    determineEmitTranspose
      [("rows".toList, 1242), ("cols".toList, 1242), ("z".toList, 40)] = some (1, 2, 0) :=
  (spectral_axis_default_and_first_candidate
    [("rows".toList, 1242), ("cols".toList, 1242), ("z".toList, 40)]).1 (by decide)

/-- C3 counterexample: on a loaded ENVI cube whose header file is not
writable, `set_bad_band_list([0])` reports failure but the in-memory
bad-band list keeps the attempted new value `[0]` instead of being rolled
back to the previous durable value `[1]`. -/
theorem set_bad_band_list_failure_keeps_new_value :
    (setBadBandList readOnlyHeaderState (some [0])).1 = false ∧
    (setBadBandList readOnlyHeaderState (some [0])).2.badBandList = some [0] ∧
    (setBadBandList readOnlyHeaderState (some [0])).2.badBandList ≠
      readOnlyHeaderState.badBandList := by
  decide

/-- C3 amended: on a loaded ENVI cube, when the header rewrite fails the
setters report failure but the in-memory state keeps the attempted new
value (the assignment happens before the rewrite and is never rolled
back); this holds for `set_bad_band_list` with a valid new list, for
`set_bad_band_list(None)`, and for `set_data_ignore_value`. -/
theorem setters_report_failure_without_rollback
    (s : HandlerState) (m : List Nat) (v : Option ℚ)
    (hload : s.isLoaded = true) (htype : s.fileType = some "envi".toList) :
    (m.length = s.bands → all01 m = true →
      saveBadBandListOk { s with badBandList := some m } = false →
      setBadBandList s (some m) = (false, { s with badBandList := some m })) ∧
    (saveBadBandListOk { s with badBandList := none } = false →
      setBadBandList s none = (false, { s with badBandList := none })) ∧
    (saveDataIgnoreValueOk { s with dataIgnoreValue := v } = false →
      setDataIgnoreValue s v = (false, { s with dataIgnoreValue := v })) := by
  refine ⟨fun hlen h01 hsave => ?_, fun hsave => ?_, fun hsave => ?_⟩
  · simp only [saveBadBandListOk] at hsave
    simp [setBadBandList, hload, htype, hlen, h01, saveBadBandListOk, hsave]
  · simp only [saveBadBandListOk] at hsave
    simp [setBadBandList, hload, htype, saveBadBandListOk, hsave]
  · simp only [saveDataIgnoreValueOk] at hsave
    simp [setDataIgnoreValue, hload, htype, saveDataIgnoreValueOk, hsave]

/-- C3 witness: the amended behaviour at the concrete read-only-header
state, for the new list `[0]` and the ignore value `5`. -/
theorem setters_report_failure_without_rollback_witness :
    setBadBandList readOnlyHeaderState (some [0]) =
      (false, { readOnlyHeaderState with badBandList := some [0] }) ∧
    setDataIgnoreValue readOnlyHeaderState (some 5) =
      (false, { readOnlyHeaderState with dataIgnoreValue := some 5 }) :=
  ⟨(setters_report_failure_without_rollback readOnlyHeaderState [0] (some 5)
      (by decide) (by decide)).1 (by decide) (by decide) (by decide),
   (setters_report_failure_without_rollback readOnlyHeaderState [0] (some 5)
      (by decide) (by decide)).2.2 (by decide)⟩

/-- C4 counterexample: on a fresh handler loading an EMIT reflectance
product (`self.file_type` is still `None` when
`_handle_emit_fill_values` runs), the value `2.0` lies outside `[0,1]`
and differs from the fill sentinel, yet it is not masked — the claimed
reflectance-specific `[0,1]` masking is not applied. -/
theorem emit_fresh_load_range_not_masked :
    emitMaskedElem none (Val.num 2) = false ∧
    vGt (Val.num 2) (Val.num 1) = true ∧
    vEq (Val.num 2) emitFillValue = false := by
  decide

/-- C4 amended: AVIRIS-3 masking is product-type-specific — reflectance
masks exactly NaN, the `-9999` fill and values outside `[0,1]`, radiance
masks exactly NaN, the fill and negative values; EMIT masking is not
product-type-specific — it always masks exactly the fill sentinel, plus
the `[0,1]` range only when the handler's `file_type` attribute already
equalled `'emit'` before the load (never on a fresh load, and then for
every EMIT product level including radiance). -/
theorem netcdf_masking_characterization (q : ℚ) :
    (aviris3MaskedElem "reflectance".toList (Val.num q) = true ↔
      q = -9999 ∨ q < 0 ∨ 1 < q) ∧
    (aviris3MaskedElem "radiance".toList (Val.num q) = true ↔ q < 0) ∧
    (aviris3MaskedElem "reflectance".toList Val.nan = true) ∧
    (aviris3MaskedElem "radiance".toList Val.nan = true) ∧
    (emitMaskedElem none (Val.num q) = true ↔ q = -9999) ∧
    (emitMaskedElem none Val.nan = false) ∧
    (emitMaskedElem (some "emit".toList) (Val.num q) = true ↔
      q = -9999 ∨ q < 0 ∨ 1 < q) := by
  refine ⟨?_, ?_, by decide, by decide, ?_, by decide, ?_⟩
  · simp [aviris3MaskedElem, vIsNan, vEq, vLt, vGt]
  · simp [aviris3MaskedElem, vIsNan, vEq, vLt, vGt]
    rintro rfl
    norm_num
  · simp [emitMaskedElem, emitFillValue, vEq]
  · simp [emitMaskedElem, emitFillValue, vEq, vLt, vGt]

/-- C4 witness: the amended characterization at the concrete value `2`:
AVIRIS-3 reflectance masks it, AVIRIS-3 radiance does not, a fresh EMIT
load does not, a stale-`'emit'` handler does. -/
theorem netcdf_masking_characterization_witness :
    aviris3MaskedElem "reflectance".toList (Val.num 2) = true ∧
    ¬ aviris3MaskedElem "radiance".toList (Val.num 2) = true ∧
    ¬ emitMaskedElem none (Val.num 2) = true ∧
    emitMaskedElem (some "emit".toList) (Val.num 2) = true :=
  ⟨(netcdf_masking_characterization 2).1.mpr (by norm_num),
   fun h => by
    have := (netcdf_masking_characterization 2).2.1.mp h
    norm_num at this,
   fun h => by
    have := (netcdf_masking_characterization 2).2.2.2.2.1.mp h
    norm_num at this,
   (netcdf_masking_characterization 2).2.2.2.2.2.2.mpr (by norm_num)⟩

/-- C9: in resident (non-memmap) ENVI mode, a line extraction reads every
pixel independently; a pixel whose read fails contributes exactly one row
of NaN of length `bands`, every other pixel's spectrum is returned as
read, and the result is a complete `(cols, bands)` array — the line read
is never aborted. -/
theorem extract_line_resident_recovers_per_pixel
    (cols bands : Nat) (readPixel : Nat → Option (List Val))
    (hlen : ∀ c s, readPixel c = some s → s.length = bands) :
    (extractLineResidentEnvi cols bands readPixel).length = cols ∧
    (∀ row ∈ extractLineResidentEnvi cols bands readPixel, row.length = bands) ∧
    (∀ c, c < cols → ∀ s, readPixel c = some s →
      (extractLineResidentEnvi cols bands readPixel).getD c [] = s) ∧
    (∀ c, c < cols → readPixel c = none →
      (extractLineResidentEnvi cols bands readPixel).getD c [] =
        List.replicate bands Val.nan) := by
  have hget : ∀ c, c < cols →
      (extractLineResidentEnvi cols bands readPixel).getD c [] =
        match readPixel c with
        | some spectrum => spectrum
        | none => List.replicate bands Val.nan := by
    intro c hc
    have hlt : c < (extractLineResidentEnvi cols bands readPixel).length := by
      simpa [extractLineResidentEnvi] using hc
    rw [List.getD_eq_getElem _ _ hlt]
    simp [extractLineResidentEnvi]
  refine ⟨by simp [extractLineResidentEnvi], ?_, ?_, ?_⟩
  · intro row hrow
    simp only [extractLineResidentEnvi, List.mem_map] at hrow
    obtain ⟨c, _, hrow⟩ := hrow
    rcases h : readPixel c with _ | s
    · rw [← hrow, h]
      simp
    · rw [← hrow, h]
      exact hlen c s h
  · intro c hc s hs
    rw [hget c hc, hs]
  · intro c hc hnone
    rw [hget c hc, hnone]

/-- C9 witness: a 3-pixel line whose middle pixel read fails yields the
two good spectra and one NaN row. -/
theorem extract_line_resident_recovers_per_pixel_witness :
    (extractLineResidentEnvi 3 2
      (fun c => if c = 1 then none else some [Val.num 7, Val.num 8])).getD 1 [] =
      List.replicate 2 Val.nan ∧
    (extractLineResidentEnvi 3 2
      (fun c => if c = 1 then none else some [Val.num 7, Val.num 8])).getD 0 [] =
      [Val.num 7, Val.num 8] ∧
    (extractLineResidentEnvi 3 2
      (fun c => if c = 1 then none else some [Val.num 7, Val.num 8])).length = 3 :=
  have h := extract_line_resident_recovers_per_pixel 3 2
    (fun c => if c = 1 then none else some [Val.num 7, Val.num 8])
    (fun c s hs => by
      by_cases hc : c = 1
      · simp [hc] at hs
      · simp only [hc, if_false, Option.some.injEq] at hs
        rw [← hs]
        rfl)
  ⟨h.2.2.2 1 (by decide) (by decide), h.2.2.1 0 (by decide) _ (by decide), h.1⟩

/-- C10: for a cube with at least one band, the three channel indices of
`get_rgb_composite` are clamped into `[0, bands-1]` before any band is
read — an index at or above the band count selects the last band, a
negative index selects band 0 — whereas `get_band_data` returns the
failure value `None` for the same out-of-range indices. -/
theorem rgb_band_clamping_vs_band_data_failure
    (r g b n : Int) (hn : 0 < n) :
    (0 ≤ (rgbClampedIndices r g b n).1 ∧ (rgbClampedIndices r g b n).1 < n) ∧
    (0 ≤ (rgbClampedIndices r g b n).2.1 ∧ (rgbClampedIndices r g b n).2.1 < n) ∧
    (0 ≤ (rgbClampedIndices r g b n).2.2 ∧ (rgbClampedIndices r g b n).2.2 < n) ∧
    (n ≤ r → (rgbClampedIndices r g b n).1 = n - 1) ∧
    (r < 0 → (rgbClampedIndices r g b n).1 = 0) ∧
    (r < 0 ∨ n ≤ r → getBandDataIndex r n = none) ∧
    (0 ≤ r → r < n →
      (rgbClampedIndices r g b n).1 = r ∧ getBandDataIndex r n = some r) := by
  simp only [rgbClampedIndices, clampBandIndex, getBandDataIndex]
  refine ⟨⟨?_, ?_⟩, ⟨?_, ?_⟩, ⟨?_, ?_⟩, fun h => ?_, fun h => ?_, fun h => ?_, fun h1 h2 => ⟨?_, ?_⟩⟩
  all_goals first
    | omega
    | (rw [if_pos (by omega)])
    | (rw [if_neg (by omega)])

/-- C10 witness: with 5 bands, the requested index 99 is clamped to band
4 by the compositor while `get_band_data(99)` fails with `None`. -/
theorem rgb_band_clamping_vs_band_data_failure_witness :
    (rgbClampedIndices 99 2 (-3) 5).1 = 4 ∧
    (rgbClampedIndices 99 2 (-3) 5).2.2 = 0 ∧
    getBandDataIndex 99 5 = none :=
  have h := rgb_band_clamping_vs_band_data_failure 99 2 (-3) 5 (by decide)
  ⟨h.2.2.2.1 (by decide), by decide, h.2.2.2.2.2.1 (Or.inr (by decide))⟩

/-- Helper: the executable absolute value agrees with the lattice one. -/
theorem qabs_eq_abs (x : ℚ) : qabs x = |x| := by
  unfold qabs
  by_cases h : x < 0
  · rw [if_pos h, abs_of_neg h]
  · rw [if_neg h, abs_of_nonneg (not_lt.mp h)]

/-- Helper: the argmin scan never fails on a nonempty list. -/
theorem argminAbsAux_ne_none (t w : ℚ) (ws : List ℚ) :
    argminAbsAux t (w :: ws) ≠ none := by
  unfold argminAbsAux
  cases argminAbsAux t ws with
  | none => simp
  | some p =>
    rcases p with ⟨j, m⟩
    by_cases h : qabs (w - t) ≤ m <;> simp [h]

/-- Helper: unfolding equation of the argmin scan when the tail scan
fails (empty tail). -/
theorem argminAbsAux_cons_none {t w : ℚ} {ws : List ℚ}
    (h : argminAbsAux t ws = none) :
    argminAbsAux t (w :: ws) = some (0, qabs (w - t)) := by
  unfold argminAbsAux
  rw [h]

/-- Helper: unfolding equation of the argmin scan when the tail scan
returns a candidate. -/
theorem argminAbsAux_cons_some {t w : ℚ} {ws : List ℚ} {j : Nat} {m : ℚ}
    (h : argminAbsAux t ws = some (j, m)) :
    argminAbsAux t (w :: ws) =
      if qabs (w - t) ≤ m then some (0, qabs (w - t)) else some (j + 1, m) := by
  unfold argminAbsAux
  rw [h]

/-- Helper: the argmin scan returns an in-range index attaining the
minimum absolute difference. -/
theorem argminAbsAux_spec (t : ℚ) :
    ∀ (ws : List ℚ) (j : Nat) (m : ℚ), argminAbsAux t ws = some (j, m) →
      j < ws.length ∧ m = qabs (ws.getD j 0 - t) ∧
      ∀ k, k < ws.length → m ≤ qabs (ws.getD k 0 - t) := by
  intro ws
  induction ws with
  | nil => intro j m h; simp [argminAbsAux] at h
  | cons w ws ih =>
    intro j m h
    cases haux : argminAbsAux t ws with
    | none =>
      rw [argminAbsAux_cons_none haux] at h
      have hnil : ws = [] := by
        cases ws with
        | nil => rfl
        | cons a as => exact absurd haux (argminAbsAux_ne_none t a as)
      simp only [Option.some.injEq, Prod.mk.injEq] at h
      obtain ⟨hj, hm⟩ := h
      subst hnil
      subst hj
      refine ⟨by simp, by rw [← hm]; simp, ?_⟩
      intro k hk
      simp only [List.length_cons, List.length_nil] at hk
      have hk0 : k = 0 := by omega
      subst hk0
      rw [← hm]
      simp
    | some p =>
      rcases p with ⟨j', m'⟩
      rw [argminAbsAux_cons_some haux] at h
      obtain ⟨hjlen, hm', hmin⟩ := ih j' m' haux
      by_cases hcmp : qabs (w - t) ≤ m'
      · rw [if_pos hcmp] at h
        simp only [Option.some.injEq, Prod.mk.injEq] at h
        obtain ⟨hj, hm⟩ := h
        subst hj
        refine ⟨by simp, by rw [← hm]; simp, ?_⟩
        intro k hk
        cases k with
        | zero => rw [← hm]; simp
        | succ k' =>
          rw [← hm, List.getD_cons_succ]
          exact le_trans hcmp (hmin k' (by simpa using hk))
      · rw [if_neg hcmp] at h
        simp only [Option.some.injEq, Prod.mk.injEq] at h
        obtain ⟨hj, hm⟩ := h
        subst hj
        refine ⟨by simpa using hjlen, by rw [← hm, List.getD_cons_succ]; exact hm', ?_⟩
        intro k hk
        cases k with
        | zero =>
          rw [← hm, List.getD_cons_zero]
          exact le_of_lt (lt_of_not_le hcmp)
        | succ k' =>
          rw [← hm, List.getD_cons_succ]
          exact hmin k' (by simpa using hk)

/-- Helper: when every wavelength is at or above both targets, the argmin
scan picks the same first-minimum index for both targets (subtracting a
constant does not change the ordering of the differences). -/
theorem argminAbsAux_all_ge (t t' : ℚ) :
    ∀ (ws : List ℚ), ws ≠ [] → (∀ w ∈ ws, t ≤ w) → (∀ w ∈ ws, t' ≤ w) →
      ∃ j, argminAbsAux t ws = some (j, ws.getD j 0 - t) ∧
           argminAbsAux t' ws = some (j, ws.getD j 0 - t') := by
  intro ws
  induction ws with
  | nil => intro h; cases h rfl
  | cons w ws ih =>
    intro _ ht ht'
    cases ws with
    | nil =>
      refine ⟨0, ?_, ?_⟩
      · have : qabs (w - t) = w - t := by
          rw [qabs_eq_abs]
          exact abs_of_nonneg (by have := ht w (by simp); linarith)
        simp [argminAbsAux, this]
      · have : qabs (w - t') = w - t' := by
          rw [qabs_eq_abs]
          exact abs_of_nonneg (by have := ht' w (by simp); linarith)
        simp [argminAbsAux, this]
    | cons w2 ws2 =>
      obtain ⟨j, h1, h2⟩ := ih (by simp)
        (fun x hx => ht x (List.mem_cons_of_mem _ hx))
        (fun x hx => ht' x (List.mem_cons_of_mem _ hx))
      have hwt : qabs (w - t) = w - t := by
        rw [qabs_eq_abs]
        exact abs_of_nonneg (by have := ht w (by simp); linarith)
      have hwt' : qabs (w - t') = w - t' := by
        rw [qabs_eq_abs]
        exact abs_of_nonneg (by have := ht' w (by simp); linarith)
      by_cases hw : w ≤ (w2 :: ws2).getD j 0
      · refine ⟨0, ?_, ?_⟩
        · rw [argminAbsAux_cons_some h1, if_pos (by rw [hwt]; linarith)]
          rw [List.getD_cons_zero, hwt]
        · rw [argminAbsAux_cons_some h2, if_pos (by rw [hwt']; linarith)]
          rw [List.getD_cons_zero, hwt']
      · refine ⟨j + 1, ?_, ?_⟩
        · rw [argminAbsAux_cons_some h1, if_neg (by rw [hwt]; intro hcon; exact hw (by linarith))]
          rw [List.getD_cons_succ]
        · rw [argminAbsAux_cons_some h2, if_neg (by rw [hwt']; intro hcon; exact hw (by linarith))]
          rw [List.getD_cons_succ]

/-- Helper: nearest-band selection is target-independent once every
wavelength lies at or above both targets. -/
theorem argminAbs_invariant (ws : List ℚ) (hne : ws ≠ []) (t t' : ℚ)
    (ht : ∀ w ∈ ws, t ≤ w) (ht' : ∀ w ∈ ws, t' ≤ w) :
    argminAbs ws t = argminAbs ws t' := by
  obtain ⟨j, h1, h2⟩ := argminAbsAux_all_ge t t' ws hne ht ht'
  unfold argminAbs
  rw [h1, h2]

/-- C7 amended: when `get_rgb_composite` auto-selects bands, the chosen
red/green/blue bands are exactly the ones whose wavelengths are nearest
to 650/550/450 nm; there is no even-spread fallback in this path, so for
a cube with no visible coverage (every wavelength at or above 650 nm)
the three chosen indices coincide — the selection collapses to three
equal bands. -/
theorem rgb_auto_selection_nearest_bands (ws : List ℚ) (n : Int)
    (hne : ws ≠ []) :
    (estimateRgbBands (some ws) n =
      ((argminAbs ws 650 : Int), (argminAbs ws 550 : Int), (argminAbs ws 450 : Int))) ∧
    (∀ t : ℚ, argminAbs ws t < ws.length ∧
      ∀ k, k < ws.length →
        |ws.getD (argminAbs ws t) 0 - t| ≤ |ws.getD k 0 - t|) ∧
    ((∀ w ∈ ws, 650 ≤ w) →
      argminAbs ws 650 = argminAbs ws 550 ∧
      argminAbs ws 550 = argminAbs ws 450) := by
  refine ⟨?_, ?_, ?_⟩
  · simp [estimateRgbBands, List.length_eq_zero, hne]
  · intro t
    simp only [← qabs_eq_abs]
    cases hws : ws with
    | nil => exact absurd hws hne
    | cons w ws2 =>
      cases haux : argminAbsAux t (w :: ws2) with
      | none => exact absurd haux (argminAbsAux_ne_none t w ws2)
      | some p =>
        rcases p with ⟨j, m⟩
        obtain ⟨hlen, hm, hmin⟩ := argminAbsAux_spec t (w :: ws2) j m haux
        have hidx : argminAbs (w :: ws2) t = j := by
          unfold argminAbs
          rw [haux]
        rw [hidx]
        exact ⟨hlen, fun k hk => by rw [← hm]; exact hmin k hk⟩
  · intro h650
    have h550 : ∀ w ∈ ws, (550 : ℚ) ≤ w := fun w hw => by
      have := h650 w hw; linarith
    have h450 : ∀ w ∈ ws, (450 : ℚ) ≤ w := fun w hw => by
      have := h650 w hw; linarith
    exact ⟨argminAbs_invariant ws hne 650 550 h650 h550,
           argminAbs_invariant ws hne 550 450 h550 h450⟩

/-- C7 counterexample: for the SWIR-only wavelengths
`[2000, 2100, 2200]` (no usable visible coverage), the auto-selection
used by `get_rgb_composite` collapses to the three equal bands
`(0, 0, 0)`, whereas the even-spread fallback the claim describes — the
one implemented only in the unused helper `get_true_color_rgb_bands` —
yields the three distinct bands `(2, 1, 0)`. -/
theorem rgb_auto_selection_no_spread_fallback :
    estimateRgbBands (some [2000, 2100, 2200]) 3 = (0, 0, 0) ∧
    getTrueColorRgbBands (some [2000, 2100, 2200]) = (2, 1, 0) := by
  with_unfolding_all decide

/-- C7 witness: the amended selection at the concrete wavelengths
`[460, 555, 660]`: the nearest bands to 650/550/450 are `(2, 1, 0)`. -/
theorem rgb_auto_selection_nearest_bands_witness :
    estimateRgbBands (some [460, 555, 660]) 3 = (2, 1, 0) ∧
    argminAbs [460, 555, 660] 650 < 3 :=
  have h := rgb_auto_selection_nearest_bands [460, 555, 660] 3 (by decide)
  ⟨by rw [h.1]; with_unfolding_all decide, by
    have := (h.2.1 650).1
    simpa using this⟩

/-- Helper: the executable absolute value is non-negative. -/
theorem qabs_nonneg (x : ℚ) : 0 ≤ qabs x := by
  rw [qabs_eq_abs]
  exact abs_nonneg x

/-- Helper: the no-data tolerance is non-negative. -/
theorem noDataTolerance_nonneg (d : ℚ) : 0 ≤ noDataTolerance d := by
  unfold noDataTolerance
  split
  · exact le_trans (by norm_num) (le_max_right _ _)
  · norm_num

/-- Helper: a pixel holding exactly the no-data value is close to it. -/
theorem vIsClose_self (d : ℚ) : vIsClose (Val.num d) d = true := by
  unfold vIsClose
  simp only [decide_eq_true_eq]
  have h1 := noDataTolerance_nonneg d
  have h2 := qabs_nonneg d
  have h3 : qabs (d - d) = 0 := by
    rw [sub_self, qabs_eq_abs, abs_zero]
  rw [h3]
  have h4 : (0 : ℚ) ≤ (1 / 1000000) * qabs d :=
    mul_nonneg (by norm_num) h2
  linarith

/-- Helper: `np.isclose` against the no-data value accepts the no-data
value itself. -/
theorem vIsCloseV_self_num (d : ℚ) :
    vIsCloseV (Val.num d) (Val.num d) = true :=
  vIsClose_self d

/-- Helper: the pixel holding exactly the no-data value is filtered out
of the valid data. -/
theorem validPixel_noData_self (d : ℚ) :
    validPixel (some (Val.num d)) (Val.num d) = false := by
  unfold validPixel
  simp [vFinite, vIsNan, vIsCloseV_self_num]

/-- Helper: one stretched pixel is at most 255. -/
theorem stretchPixel_le (p2 p98 : ℚ) (x : Val) : stretchPixel p2 p98 x ≤ 255 := by
  cases x with
  | nan => simp [stretchPixel]
  | inf => simp [stretchPixel]
  | ninf => simp [stretchPixel]
  | num q =>
    show (⌊clip01 ((q - p2) / (p98 - p2)) * 255⌋).toNat ≤ 255
    have hc : clip01 ((q - p2) / (p98 - p2)) ≤ 1 :=
      max_le (by norm_num) (min_le_left 1 _)
    have h2 : clip01 ((q - p2) / (p98 - p2)) * 255 ≤ 255 := by nlinarith
    have h3 : (⌊clip01 ((q - p2) / (p98 - p2)) * 255⌋ : ℤ) ≤ 255 := by
      have := Int.floor_le_floor h2
      simpa using this
    exact Int.toNat_le.mpr h3

/-- Helper: every pre-no-data-pass output value is at most 255. -/
theorem normalizeCore_bound (band : List Val) (stretch : ℚ)
    (noData : Option Val) :
    ∀ v ∈ normalizeCore band stretch noData, v ≤ 255 := by
  intro v hv
  unfold normalizeCore at hv
  by_cases h1 : (validData band noData).length = 0
  · rw [if_pos h1] at hv
    obtain ⟨x, _, hx⟩ := List.mem_map.mp hv
    omega
  · rw [if_neg h1] at hv
    by_cases h2 : (stretchBounds (validData band noData) stretch).1 <
        (stretchBounds (validData band noData) stretch).2
    · rw [if_pos h2] at hv
      obtain ⟨x, _, hx⟩ := List.mem_map.mp hv
      rw [← hx]
      exact stretchPixel_le _ _ x
    · rw [if_neg h2] at hv
      by_cases h3 : (stretchBounds (validData band noData) stretch).1 ≠ 0
      · rw [if_pos h3] at hv
        obtain ⟨x, _, hx⟩ := List.mem_map.mp hv
        omega
      · rw [if_neg h3] at hv
        obtain ⟨x, _, hx⟩ := List.mem_map.mp hv
        omega

/-- Helper: the no-data zeroing pass preserves an upper bound. -/
theorem zipWith_noData_bound (nd : Val) :
    ∀ (band : List Val) (core : List Nat), (∀ v ∈ core, v ≤ 255) →
      ∀ v ∈ List.zipWith (fun x v => if vIsCloseV x nd then 0 else v) band core,
        v ≤ 255 := by
  intro band
  induction band with
  | nil => intro core _ v hv; simp at hv
  | cons x xs ih =>
    intro core h v hv
    cases core with
    | nil => simp at hv
    | cons c cs =>
      simp only [List.zipWith_cons_cons, List.mem_cons] at hv
      rcases hv with hv | hv
      · subst hv
        by_cases hcl : vIsCloseV x nd
        · simp [hcl]
        · simp only [hcl, if_false]
          exact h c (by simp)
      · exact ih cs (fun u hu => h u (List.mem_cons_of_mem _ hu)) v hv

/-- Helper: the channel output has one entry per pixel before the
no-data pass. -/
theorem normalizeCore_length (band : List Val) (stretch : ℚ)
    (noData : Option Val) :
    (normalizeCore band stretch noData).length = band.length := by
  unfold normalizeCore
  by_cases h1 : (validData band noData).length = 0
  · rw [if_pos h1]
    simp
  · rw [if_neg h1]
    by_cases h2 : (stretchBounds (validData band noData) stretch).1 <
        (stretchBounds (validData band noData) stretch).2
    · rw [if_pos h2]
      simp
    · rw [if_neg h2]
      by_cases h3 : (stretchBounds (validData band noData) stretch).1 ≠ 0
      · rw [if_pos h3]
        simp
      · rw [if_neg h3]
        simp

/-- Helper: indexing into the no-data zeroing pass. -/
theorem getD_zipWith_noData (nd : Val) :
    ∀ (band : List Val) (core : List Nat) (i : Nat),
      i < band.length → i < core.length →
      (List.zipWith (fun x v => if vIsCloseV x nd then 0 else v) band core).getD i 1 =
        if vIsCloseV (band.getD i Val.nan) nd then 0 else core.getD i 0 := by
  intro band
  induction band with
  | nil => intro core i h _; simp at h
  | cons x xs ih =>
    intro core i h1 h2
    cases core with
    | nil => simp at h2
    | cons c cs =>
      cases i with
      | zero => simp
      | succ j =>
        simp only [List.zipWith_cons_cons, List.getD_cons_succ]
        exact ih cs j (by simpa using h1) (by simpa using h2)

/-- Helper: appending a pixel that holds the no-data value leaves the
valid data unchanged. -/
theorem validData_append_nodata (band : List Val) (d : ℚ) :
    validData (band ++ [Val.num d]) (some (Val.num d)) =
      validData band (some (Val.num d)) := by
  unfold validData
  rw [List.filterMap_append]
  have hvp := validPixel_noData_self d
  simp [List.filterMap, hvp]

/-- Helper: appending a no-data pixel appends exactly one entry to the
pre-pass channel output. -/
theorem normalizeCore_append_nodata (band : List Val) (d stretch : ℚ) :
    ∃ c, normalizeCore (band ++ [Val.num d]) stretch (some (Val.num d)) =
      normalizeCore band stretch (some (Val.num d)) ++ [c] := by
  unfold normalizeCore
  rw [validData_append_nodata]
  by_cases h1 : (validData band (some (Val.num d))).length = 0
  · exact ⟨0, by rw [if_pos h1, if_pos h1, List.map_append]; rfl⟩
  · rw [if_neg h1, if_neg h1]
    by_cases h2 : (stretchBounds (validData band (some (Val.num d))) stretch).1 <
        (stretchBounds (validData band (some (Val.num d))) stretch).2
    · exact ⟨_, by rw [if_pos h2, if_pos h2, List.map_append]; rfl⟩
    · rw [if_neg h2, if_neg h2]
      by_cases h3 : (stretchBounds (validData band (some (Val.num d))) stretch).1 ≠ 0
      · exact ⟨128, by rw [if_pos h3, if_pos h3, List.map_append]; rfl⟩
      · exact ⟨0, by rw [if_neg h3, if_neg h3, List.map_append]; rfl⟩

/-- C5 counterexample: for the 10-pixel band
`[0,5,5,5,5,5,5,5,5,100]` at 20 percent stretch, the 20th and 80th
percentiles of the valid data coincide at 5 while its min/max range
`[0,100]` is non-degenerate; the code does not fall back to that range
but renders the whole channel as the constant 128, whereas the
behaviour the claim describes (modelled by `specNormalizeBand`) would
produce a non-constant stretched channel. -/
theorem percentile_degenerate_no_minmax_fallback :
    percentileQ (validData ([0,5,5,5,5,5,5,5,5,100].map Val.num) none) 20 = 5 ∧
    percentileQ (validData ([0,5,5,5,5,5,5,5,5,100].map Val.num) none) 80 = 5 ∧
    listMinQ (validData ([0,5,5,5,5,5,5,5,5,100].map Val.num) none) = 0 ∧
    listMaxQ (validData ([0,5,5,5,5,5,5,5,5,100].map Val.num) none) = 100 ∧
    normalizeBand ([0,5,5,5,5,5,5,5,5,100].map Val.num) 20 none =
      List.replicate 10 128 ∧
    specNormalizeBand ([0,5,5,5,5,5,5,5,5,100].map Val.num) 20 none ≠
      List.replicate 10 128 := by
  with_unfolding_all decide

/-- C5 amended: every output element of the compositor channel lies in
`[0,255]`; and whenever the two stretch percentiles over the valid data
coincide, the channel is rendered directly as the uniform constant 128
(non-zero percentile value) or 0 (zero percentile value) — the min/max
fallback is reserved for a failing percentile computation and is not
applied here. -/
theorem stretch_bounded_and_degenerate_constant (band : List Val)
    (stretch : ℚ) (noData : Option Val) :
    (∀ v ∈ normalizeBand band stretch noData, v ≤ 255) ∧
    (validData band none ≠ [] → 0 ≤ stretch → stretch ≤ 100 →
      percentileQ (validData band none) stretch =
        percentileQ (validData band none) (100 - stretch) →
      normalizeBand band stretch none =
        List.replicate band.length
          (if percentileQ (validData band none) stretch ≠ 0 then 128 else 0)) := by
  constructor
  · intro v hv
    cases noData with
    | none => exact normalizeCore_bound band stretch none v (by simpa [normalizeBand] using hv)
    | some nd =>
      simp only [normalizeBand] at hv
      by_cases hnan : vIsNan nd
      · rw [if_pos hnan] at hv
        exact normalizeCore_bound band stretch (some nd) v hv
      · rw [if_neg hnan] at hv
        exact zipWith_noData_bound nd band _
          (normalizeCore_bound band stretch (some nd)) v hv
  · intro hne h0 h100 heq
    show normalizeCore band stretch none = _
    unfold normalizeCore
    rw [if_neg (by
      intro hlen
      exact hne (List.length_eq_zero.mp hlen))]
    have hbounds : stretchBounds (validData band none) stretch =
        (percentileQ (validData band none) stretch,
         percentileQ (validData band none) (100 - stretch)) := by
      unfold stretchBounds
      rw [if_pos (by refine ⟨h0, h100, by linarith, by linarith⟩)]
    rw [hbounds]
    simp only
    rw [if_neg (by rw [← heq]; exact lt_irrefl _)]
    by_cases hz : percentileQ (validData band none) stretch ≠ 0
    · rw [if_pos hz, if_pos hz, List.map_const']
    · rw [if_neg hz, if_neg hz, List.map_const']

/-- C5 witness: the uniform-128 case and boundedness at the constant
band `[3, 3]` with 10 percent stretch. -/
theorem stretch_bounded_and_degenerate_constant_witness :
    normalizeBand ([3, 3].map Val.num) 10 none = List.replicate 2 128 ∧
    ∀ v ∈ normalizeBand ([3, 3].map Val.num) 10 none, v ≤ 255 :=
  have h := stretch_bounded_and_degenerate_constant ([3, 3].map Val.num) 10 none
  ⟨by
    rw [h.2 (by with_unfolding_all decide) (by norm_num) (by norm_num)
      (by with_unfolding_all decide)]
    with_unfolding_all decide,
   h.1⟩

/-- C6: with a finite (non-NaN) no-data value, the channel output has one
entry per pixel; every pixel holding exactly the no-data value is 0 in
the output, because the zeroing happens after the stretch and clip; and
appending a no-data pixel to the band leaves every other output pixel
unchanged (appending only a trailing 0), because no-data pixels are
excluded from the percentile computation that fixes the stretch range. -/
theorem no_data_excluded_and_zeroed_post_stretch (band : List Val)
    (d stretch : ℚ) :
    ((normalizeBand band stretch (some (Val.num d))).length = band.length) ∧
    (∀ i, i < band.length → band.getD i Val.nan = Val.num d →
      (normalizeBand band stretch (some (Val.num d))).getD i 1 = 0) ∧
    (normalizeBand (band ++ [Val.num d]) stretch (some (Val.num d)) =
      normalizeBand band stretch (some (Val.num d)) ++ [0]) := by
  have hnan : vIsNan (Val.num d) = false := rfl
  have hshape : normalizeBand band stretch (some (Val.num d)) =
      List.zipWith (fun x v => if vIsCloseV x (Val.num d) then 0 else v) band
        (normalizeCore band stretch (some (Val.num d))) := by
    simp only [normalizeBand, hnan, Bool.false_eq_true, if_false]
  have hlen := normalizeCore_length band stretch (some (Val.num d))
  refine ⟨?_, ?_, ?_⟩
  · rw [hshape]
    simp [hlen]
  · intro i hi hval
    rw [hshape, getD_zipWith_noData (Val.num d) band _ i hi (by rw [hlen]; exact hi),
      hval, vIsCloseV_self_num]
    rfl
  · obtain ⟨c, hc⟩ := normalizeCore_append_nodata band d stretch
    have hshape2 : normalizeBand (band ++ [Val.num d]) stretch (some (Val.num d)) =
        List.zipWith (fun x v => if vIsCloseV x (Val.num d) then 0 else v)
          (band ++ [Val.num d])
          (normalizeCore (band ++ [Val.num d]) stretch (some (Val.num d))) := by
      simp only [normalizeBand, hnan, Bool.false_eq_true, if_false]
    rw [hshape2, hc, List.zipWith_append _ _ _ _ _ hlen.symm, hshape]
    simp [vIsCloseV_self_num]

/-- C6 witness: the pixel equal to the no-data value 5 is zeroed after
the stretch, and appending another no-data pixel appends exactly one 0. -/
theorem no_data_excluded_and_zeroed_post_stretch_witness :
    (normalizeBand ([Val.num 1, Val.num 5, Val.num 3]) 2 (some (Val.num 5))).getD 1 1 = 0 ∧
    normalizeBand ([Val.num 1, Val.num 5, Val.num 3] ++ [Val.num 5]) 2 (some (Val.num 5)) =
      normalizeBand [Val.num 1, Val.num 5, Val.num 3] 2 (some (Val.num 5)) ++ [0] :=
  have h := no_data_excluded_and_zeroed_post_stretch [Val.num 1, Val.num 5, Val.num 3] 5 2
  ⟨h.2.1 1 (by decide) (by rfl), h.2.2⟩

/-- Helper: the startswith test is the existence of a tail. -/
theorem hasLead_iff_append {p : List Char} :
    ∀ {l : List Char}, hasLead p l = true ↔ ∃ t, l = p ++ t := by
  induction p with
  | nil =>
    intro l
    simp [hasLead]
  | cons a as ih =>
    intro l
    cases l with
    | nil =>
      simp only [hasLead]
      constructor
      · intro h
        cases h
      · rintro ⟨t, ht⟩
        cases ht
    | cons b bs =>
      simp only [hasLead, Bool.and_eq_true, beq_iff_eq]
      constructor
      · rintro ⟨rfl, h⟩
        obtain ⟨t, rfl⟩ := ih.mp h
        exact ⟨t, rfl⟩
      · rintro ⟨t, ht⟩
        injection ht with h1 h2
        exact ⟨h1.symm, ih.mpr ⟨t, h2⟩⟩

/-- Helper: whitespace characters are not the equals sign. -/
theorem ws_not_eq_sign {c : Char} (h : isWS c = true) : (!(c == '=')) = true := by
  unfold isWS at h
  simp only [Bool.or_eq_true, beq_iff_eq] at h
  rcases h with ((((rfl | rfl) | rfl) | rfl) | rfl) | rfl <;> decide

/-- Helper: taking up to the first equals sign commutes with the left
whitespace strip. -/
theorem lstrip_takeWhile_eq :
    ∀ cs : List Char,
      lstrip (cs.takeWhile (fun c => !(c == '='))) =
        (lstrip cs).takeWhile (fun c => !(c == '=')) := by
  intro cs
  induction cs with
  | nil => rfl
  | cons c cs ih =>
    by_cases hw : isWS c = true
    · rw [List.takeWhile_cons, if_pos (by simpa using ws_not_eq_sign hw)]
      unfold lstrip at ih ⊢
      rw [List.dropWhile_cons_of_pos hw, List.dropWhile_cons_of_pos hw]
      exact ih
    · by_cases hp : (!(c == '=')) = true
      · rw [List.takeWhile_cons, if_pos (by simpa using hp)]
        unfold lstrip
        rw [List.dropWhile_cons_of_neg (by simpa using hw),
          List.dropWhile_cons_of_neg (by simpa using hw),
          List.takeWhile_cons, if_pos (by simpa using hp)]
      · rw [List.takeWhile_cons, if_neg (by simpa using hp)]
        unfold lstrip
        rw [List.dropWhile_cons_of_neg (by simpa using hw),
          List.takeWhile_cons, if_neg (by simpa using hp)]
        rfl

/-- Helper: a list splits as its right-stripped part plus trailing
whitespace. -/
theorem rstrip_split (u : List Char) : ∃ w, u = rstrip u ++ w := by
  refine ⟨(u.reverse.takeWhile isWS).reverse, ?_⟩
  unfold rstrip
  calc u = u.reverse.reverse := (List.reverse_reverse u).symm
    _ = (u.reverse.takeWhile isWS ++ u.reverse.dropWhile isWS).reverse := by
        rw [List.takeWhile_append_dropWhile]
    _ = (u.reverse.dropWhile isWS).reverse ++ (u.reverse.takeWhile isWS).reverse := by
        rw [List.reverse_append]

/-- Helper: the right strip of an extension keeps the right strip of the
original as a leading segment. -/
theorem rstrip_append_ex (u v : List Char) :
    ∃ t, rstrip (u ++ v) = rstrip u ++ t := by
  by_cases h : (v.reverse.dropWhile isWS).isEmpty = true
  · refine ⟨[], ?_⟩
    rw [List.append_nil]
    show ((u ++ v).reverse.dropWhile isWS).reverse = rstrip u
    rw [List.reverse_append, List.dropWhile_append, if_pos h]
    rfl
  · obtain ⟨w, hw⟩ := rstrip_split u
    refine ⟨w ++ (v.reverse.dropWhile isWS).reverse, ?_⟩
    show ((u ++ v).reverse.dropWhile isWS).reverse = _
    rw [List.reverse_append, List.dropWhile_append, if_neg h, List.reverse_append,
      List.reverse_reverse]
    conv_lhs => rw [hw]
    rw [List.append_assoc]

/-- Helper: the lower-cased stripped key text is a leading segment of the
lower-cased stripped line. -/
theorem key_lead_of_line (cs : List Char) :
    ∃ t, toLowerL (stripWS cs) =
      toLowerL (stripWS (cs.takeWhile (fun c => !(c == '=')))) ++ t := by
  unfold stripWS
  rw [lstrip_takeWhile_eq]
  obtain ⟨t, ht⟩ := rstrip_append_ex
    ((lstrip cs).takeWhile (fun c => !(c == '=')))
    ((lstrip cs).dropWhile (fun c => !(c == '=')))
  rw [List.takeWhile_append_dropWhile] at ht
  refine ⟨toLowerL t, ?_⟩
  rw [ht]
  unfold toLowerL
  rw [List.map_append]

/-- Helper: a line whose parsed key is `bbl` starts with `bbl` after
stripping and lower-casing. -/
theorem hasLead_bbl_of_key (l : List Char)
    (hk : toLowerL (keyOf l) = "bbl".toList) :
    hasLead "bbl".toList (toLowerL (stripWS l)) = true := by
  obtain ⟨t, ht⟩ := key_lead_of_line l
  unfold keyOf at hk
  rw [hk] at ht
  exact hasLead_iff_append.mpr ⟨t, ht⟩

/-- Helper: no line surviving the `bbl`-filter matches the `bbl` key. -/
theorem find?_filterBBL_none (lines : List (List Char)) :
    (filterBBLLines lines).find?
      (fun l => l.contains '=' && (toLowerL (keyOf l) == "bbl".toList)) = none := by
  rw [List.find?_eq_none]
  intro l hl
  obtain ⟨_, hcond⟩ := List.mem_filter.mp hl
  intro hpred
  simp only [Bool.and_eq_true] at hpred
  obtain ⟨_, hbeq⟩ := hpred
  have hk : toLowerL (keyOf l) = "bbl".toList := by
    exact eq_of_beq hbeq
  have := hasLead_bbl_of_key l hk
  rw [this] at hcond
  cases hcond

/-- Helper: the header lookup finds nothing after removing the `bbl`
lines. -/
theorem headerLookup_filterBBL_none (lines : List (List Char)) :
    headerLookup (filterBBLLines lines) "bbl".toList = none := by
  unfold headerLookup
  rw [find?_filterBBL_none]
  rfl

/-- Helper: the insertion-index scan never moves off the end of the
line list. -/
theorem bblInsertIdx_aux (cond : List Char → Bool) :
    ∀ (l : List (List Char)) (start acc : Nat), start + l.length ≤ acc →
      (List.enumFrom start l).foldl
        (fun a p => if cond p.2 then max a (p.1 + 1) else a) acc = acc := by
  intro l
  induction l with
  | nil => intro start acc _; rfl
  | cons x xs ih =>
    intro start acc h
    show (List.enumFrom (start + 1) xs).foldl _
      (if cond x then max acc (start + 1) else acc) = acc
    have hstep : (if cond x then max acc (start + 1) else acc) = acc := by
      have : start + 1 ≤ acc := by
        simp only [List.length_cons] at h
        omega
      by_cases hc : cond x
      · rw [if_pos hc, max_eq_left this]
      · rw [if_neg hc]
    rw [hstep]
    apply ih
    simp only [List.length_cons] at h
    omega

/-- Helper: the `bbl` line is always appended at the end. -/
theorem bblInsertIdx_eq_length (filtered : List (List Char)) :
    bblInsertIdx filtered = filtered.length := by
  unfold bblInsertIdx
  rw [List.enum_eq_enumFrom]
  exact bblInsertIdx_aux
    (fun l => hasLead "wavelength".toList (toLowerL (stripWS l)) ||
      hasLead "fwhm".toList (toLowerL (stripWS l)) ||
      hasLead "bands".toList (toLowerL (stripWS l)))
    filtered 0 filtered.length (by omega)

/-- Helper: saving a present bad-band list appends the serialized line
after the filtered header lines. -/
theorem saveBBLLines_some_eq (lines : List (List Char)) (mask : List Nat) :
    saveBBLLines lines (some mask) =
      filterBBLLines lines ++ [bblHeaderLine mask] := by
  show pyInsert (bblInsertIdx (filterBBLLines lines)) (bblHeaderLine mask)
    (filterBBLLines lines) = _
  rw [bblInsertIdx_eq_length]
  unfold pyInsert
  rw [List.take_length, List.drop_length, List.append_nil]

/-- Helper: a list ending in a non-whitespace character is already
right-stripped. -/
theorem rstrip_append_nonws {c : Char} (hc : isWS c = false) (xs : List Char) :
    rstrip (xs ++ [c]) = xs ++ [c] := by
  unfold rstrip
  simp only [List.reverse_append, List.reverse_singleton, List.singleton_append]
  rw [List.dropWhile_cons_of_neg (by simp [hc])]
  simp

/-- Helper: the value text of the written `bbl` line is the serialized
brace list. -/
theorem valOf_bblHeaderLine (mask : List Nat) :
    valOf (bblHeaderLine mask) = serBBLValue mask := by
  have h1 : valOf (bblHeaderLine mask) = rstrip ('{' :: (serElems mask ++ ['}'])) := rfl
  rw [h1]
  rw [show ('{' :: (serElems mask ++ ['}'])) = ('{' :: serElems mask) ++ ['}'] from rfl]
  rw [rstrip_append_nonws (by decide)]
  rfl

/-- Helper: the written `bbl` line matches the lookup predicate. -/
theorem bblHeaderLine_pred (mask : List Nat) :
    ((bblHeaderLine mask).contains '=' &&
      (toLowerL (keyOf (bblHeaderLine mask)) == "bbl".toList)) = true := by
  have h1 : (bblHeaderLine mask).contains '=' = true := rfl
  have h2 : keyOf (bblHeaderLine mask) = "bbl".toList := rfl
  rw [h1, h2]
  rfl

/-- Helper: after a save of a present list the `bbl` lookup finds exactly
the serialized value. -/
theorem headerLookup_save_some (lines : List (List Char)) (mask : List Nat) :
    headerLookup (saveBBLLines lines (some mask)) "bbl".toList =
      some (serBBLValue mask) := by
  rw [saveBBLLines_some_eq]
  unfold headerLookup
  rw [List.find?_append, find?_filterBBL_none]
  have hfind : List.find?
      (fun l => l.contains '=' && (toLowerL (keyOf l) == "bbl".toList))
      [bblHeaderLine mask] = some (bblHeaderLine mask) :=
    List.find?_cons_of_pos _ (bblHeaderLine_pred mask)
  rw [hfind]
  show some (valOf (bblHeaderLine mask)) = _
  rw [valOf_bblHeaderLine]

/-- Helper: the comma split never produces the empty piece list. -/
theorem splitC_ne_nil (l : List Char) : splitC l ≠ [] := by
  cases l with
  | nil => simp [splitC]
  | cons c cs =>
    unfold splitC
    by_cases h : c = ','
    · simp [h]
    · rw [if_neg h]
      cases splitC cs <;> simp

/-- Helper: unfolding of the comma split on a non-comma head. -/
theorem splitC_cons_ne {c : Char} (h : ¬ c = ',') (cs : List Char)
    (h' : List Char) (t' : List (List Char)) (hs : splitC cs = h' :: t') :
    splitC (c :: cs) = (c :: h') :: t' := by
  unfold splitC
  rw [if_neg h, hs]

/-- Helper: the comma split at the first comma. -/
theorem splitC_append_noComma :
    ∀ (xs ys : List Char), (∀ c ∈ xs, c ≠ ',') →
      splitC (xs ++ ',' :: ys) = xs :: splitC ys := by
  intro xs
  induction xs with
  | nil =>
    intro ys _
    show splitC (',' :: ys) = [] :: splitC ys
    rw [splitC, if_pos rfl]
  | cons x xs ih =>
    intro ys h
    have hx : ¬ x = ',' := h x (by simp)
    have htail := ih ys (fun c hc => h c (List.mem_cons_of_mem _ hc))
    rw [List.cons_append]
    exact splitC_cons_ne hx _ _ _ htail

/-- Helper: the comma split after a leading space wraps the first piece. -/
theorem splitC_cons_space (l : List Char) :
    ∃ h' t', splitC l = h' :: t' ∧ splitC (' ' :: l) = (' ' :: h') :: t' := by
  cases hs : splitC l with
  | nil => exact absurd hs (splitC_ne_nil l)
  | cons h' t' => exact ⟨h', t', rfl, splitC_cons_ne (by decide) l h' t' hs⟩

/-- Helper: stripping whitespace ignores a leading whitespace character. -/
theorem stripWS_cons_ws (c : Char) (hc : isWS c = true) (l : List Char) :
    stripWS (c :: l) = stripWS l := by
  unfold stripWS lstrip
  rw [List.dropWhile_cons_of_pos hc]

/-- Helper: the rendering of a 0/1 entry. -/
theorem natStr_01 {n : Nat} (h : n = 0 ∨ n = 1) :
    natStr n = ['0'] ∨ natStr n = ['1'] := by
  rcases h with rfl | rfl
  · exact Or.inl (by decide)
  · exact Or.inr (by decide)

/-- Helper: parsing back the serialized pieces of a 0/1 list recovers the
list. -/
theorem parseBBL_serElems :
    ∀ m : List Nat, m ≠ [] → (∀ x ∈ m, x = 0 ∨ x = 1) →
      parseBBLPieces (serElems m) = some m := by
  intro m
  induction m with
  | nil => intro h; cases h rfl
  | cons n m' ih =>
    intro _ hall
    have hn := hall n (by simp)
    cases m' with
    | nil =>
      rcases hn with rfl | rfl <;> decide
    | cons n2 m'' =>
      have hser : serElems (n :: n2 :: m'') =
          natStr n ++ ',' :: ' ' :: serElems (n2 :: m'') := rfl
      have hnc : ∀ c ∈ natStr n, c ≠ ',' := by
        rcases natStr_01 hn with h | h <;> rw [h] <;> decide
      obtain ⟨h', t', hs, hcons⟩ := splitC_cons_space (serElems (n2 :: m''))
      have hsplit : splitC (serElems (n :: n2 :: m'')) =
          natStr n :: (' ' :: h') :: t' := by
        rw [hser, splitC_append_noComma (natStr n) _ hnc, hcons]
      have hstr : stripWS (natStr n) = natStr n := by
        rcases natStr_01 hn with h | h <;> rw [h] <;> decide
      have hmap : ((splitC (serElems (n :: n2 :: m''))).map stripWS).filter
          (fun x => x ≠ []) =
          natStr n :: (((splitC (serElems (n2 :: m''))).map stripWS).filter
            (fun x => x ≠ [])) := by
        rw [hsplit, hs]
        simp only [List.map_cons, hstr]
        rw [stripWS_cons_ws ' ' (by decide) h']
        rw [List.filter_cons, if_pos (by
          simp only [decide_eq_true_eq]
          rcases natStr_01 hn with h | h <;> rw [h] <;> decide)]
      have hint : parseIntL (natStr n) = some n := by
        rcases hn with rfl | rfl <;> decide
      have htail := ih (by simp) (fun x hx => hall x (List.mem_cons_of_mem _ hx))
      unfold parseBBLPieces at htail ⊢
      rw [hmap]
      show (match parseIntL (natStr n),
        optMapIntL (((splitC (serElems (n2 :: m''))).map stripWS).filter
          (fun x => x ≠ [])) with
        | some n, some l => some (n :: l)
        | _, _ => none) = _
      rw [hint, htail]

/-- Helper: the serialized entries of a nonempty 0/1 list start with a
digit. -/
theorem serElems_head :
    ∀ m : List Nat, m ≠ [] → (∀ x ∈ m, x = 0 ∨ x = 1) →
      ∃ c r, serElems m = c :: r ∧ bblStripChars.contains c = false := by
  intro m
  cases m with
  | nil => intro h; cases h rfl
  | cons n m' =>
    intro _ hall
    have hn := hall n (by simp)
    cases m' with
    | nil =>
      rcases hn with rfl | rfl
      · exact ⟨'0', [], by decide, by decide⟩
      · exact ⟨'1', [], by decide, by decide⟩
    | cons a b =>
      have hser : serElems (n :: a :: b) =
          natStr n ++ ',' :: ' ' :: serElems (a :: b) := rfl
      rcases natStr_01 hn with h | h
      · exact ⟨'0', ',' :: ' ' :: serElems (a :: b), by rw [hser, h]; rfl, by decide⟩
      · exact ⟨'1', ',' :: ' ' :: serElems (a :: b), by rw [hser, h]; rfl, by decide⟩

/-- Helper: the serialized entries of a nonempty 0/1 list end with a
digit. -/
theorem serElems_getLast :
    ∀ m : List Nat, m ≠ [] → (∀ x ∈ m, x = 0 ∨ x = 1) →
      ∃ c, (serElems m).getLast? = some c ∧ bblStripChars.contains c = false := by
  intro m
  induction m with
  | nil => intro h; cases h rfl
  | cons n m' ih =>
    intro _ hall
    have hn := hall n (by simp)
    cases m' with
    | nil =>
      rcases hn with rfl | rfl
      · exact ⟨'0', by decide, by decide⟩
      · exact ⟨'1', by decide, by decide⟩
    | cons a b =>
      obtain ⟨c, hc, hcn⟩ := ih (by simp) (fun x hx => hall x (List.mem_cons_of_mem _ hx))
      refine ⟨c, ?_, hcn⟩
      have hser : serElems (n :: a :: b) =
          natStr n ++ ',' :: ' ' :: serElems (a :: b) := rfl
      rw [hser, List.getLast?_append]
      rw [show (',' :: ' ' :: serElems (a :: b)) = [','] ++ ([' '] ++ serElems (a :: b)) from rfl]
      rw [List.getLast?_append, List.getLast?_append, hc]
      rfl

/-- Helper: stripping `{}[] ` from the serialized brace value recovers
the serialized entries. -/
theorem stripSet_serBBLValue (m : List Nat) (hne : m ≠ [])
    (h01 : ∀ x ∈ m, x = 0 ∨ x = 1) :
    stripSet bblStripChars (serBBLValue m) = serElems m := by
  obtain ⟨c, r, hcr, hc⟩ := serElems_head m hne h01
  obtain ⟨c2, hl2, hc2⟩ := serElems_getLast m hne h01
  unfold stripSet serBBLValue
  rw [List.dropWhile_cons_of_pos (by decide)]
  rw [hcr, List.cons_append,
    List.dropWhile_cons_of_neg (fun h => by rw [h] at hc; cases hc),
    ← List.cons_append, ← hcr]
  rw [List.reverse_append, List.reverse_singleton, List.singleton_append]
  rw [List.dropWhile_cons_of_pos (by decide)]
  have hrev : (serElems m).reverse.head? = some c2 := by
    rw [List.head?_reverse]
    exact hl2
  cases hrevl : (serElems m).reverse with
  | nil => rw [hrevl] at hrev; cases hrev
  | cons d ds =>
    rw [hrevl] at hrev
    injection hrev with hd
    subst hd
    rw [List.dropWhile_cons_of_neg (fun h => by rw [h] at hc2; cases hc2),
      ← hrevl, List.reverse_reverse]

/-- C2: writing a 0/1 bad-band list of the band count into the header
and re-parsing the header on reload recovers exactly that list,
regardless of what was in memory before; writing `None` removes the key
entirely, so the re-parsed header has no `bbl` entry and the loaded list
is the absent value. -/
theorem bad_band_list_header_round_trip (lines : List (List Char))
    (mask : List Nat) (bands : Nat) (prior : Option (List Nat))
    (hlen : mask.length = bands) (hpos : 0 < bands)
    (h01 : ∀ x ∈ mask, x = 0 ∨ x = 1) :
    loadBBL (saveBBLLines lines (some mask)) bands prior = some mask ∧
    headerLookup (saveBBLLines lines none) "bbl".toList = none ∧
    loadBBL (saveBBLLines lines none) bands none = none := by
  have hne : mask ≠ [] := by
    intro h
    rw [h] at hlen
    simp at hlen
    omega
  refine ⟨?_, ?_, ?_⟩
  · unfold loadBBL
    rw [headerLookup_save_some]
    have hv : serBBLValue mask ≠ [] := by
      unfold serBBLValue
      simp
    obtain ⟨c, r, hcr, _⟩ := serElems_head mask hne h01
    have hs : serElems mask ≠ [] := by
      rw [hcr]
      simp
    show loadBBLValue (serBBLValue mask) bands prior = some mask
    unfold loadBBLValue
    rw [if_neg hv, stripSet_serBBLValue mask hne h01, if_neg hs,
      parseBBL_serElems mask hne h01]
    show (if mask.length ≠ bands then none else some mask) = some mask
    rw [if_neg (by rw [hlen]; exact fun h => h rfl)]
  · show headerLookup (filterBBLLines lines) "bbl".toList = none
    exact headerLookup_filterBBL_none lines
  · unfold loadBBL
    rw [show saveBBLLines lines none = filterBBLLines lines from rfl,
      headerLookup_filterBBL_none]

/-- C2 witness: the round trip on a concrete three-line header with the
mask `[1,0,1]` over 3 bands (with a stale in-memory list before the
reload), and the key removal for `None`. -/
theorem bad_band_list_header_round_trip_witness :
    loadBBL (saveBBLLines
        ["ENVI".toList, "bands = 3".toList, "bbl = {1, 1, 1}".toList]
        (some [1, 0, 1])) 3 (some [0, 0, 0]) = some [1, 0, 1] ∧
    headerLookup (saveBBLLines
        ["ENVI".toList, "bands = 3".toList, "bbl = {1, 1, 1}".toList]
        none) "bbl".toList = none :=
  have h := bad_band_list_header_round_trip
    ["ENVI".toList, "bands = 3".toList, "bbl = {1, 1, 1}".toList]
    [1, 0, 1] 3 (some [0, 0, 0]) (by decide) (by decide) (by decide)
  ⟨h.1, h.2.1⟩

end DataHandler
